import Mathlib

/-!
Verification development for the pangenome-rarefaction scanner.

The definitions below are a shallow embedding of the Rust sources:

* `src/graph_broker/util.rs` — the GFA path/walk scanner (`parse_gfa_paths_walks`,
  `update_tables`, `update_tables_edgecount`, `parse_path_seq_update_tables`,
  `parse_path_seq_to_item_vec`) — embedded faithfully, statement by statement,
  with machine integers as `Nat` (all quantities involved are small and
  non-overflowing in the source), byte-level token parsing abstracted to lists
  of already-split tokens (a token is a node name, here a `Nat`, plus an
  orientation), and the rayon-parallel fast-path appends sequentialised over an
  arbitrary schedule (a permutation of the token list).
* `src/main.rs` — the older front-end; only its inline edge canonicalisation
  from `cumulative_count_edges` is embedded (`canonicalEdgeMain`).

Items from the crate's `util` module and from `graph_broker/graph.rs`
(`ItemTable`, `ActiveTable`, `IntervalContainer`, `intersects`, `is_contained`,
`Edge::canonical`, `GraphStorage`) are not part of the provided sources; they
are modelled from the specification, as marked in their doc comments.
-/

namespace Panacus

/-- Modelled from the spec: number of hash buckets used for bounded-contention
parallel writes ("total SIZE_T mutexes, e.g. 256"). -/
def SIZE_T : Nat := 256

/-- `usize::MAX` on a 64-bit target; the scanner uses it as the open right end
of a path's raw span when no coordinates are given. -/
def USIZE_MAX : Nat := 2 ^ 64 - 1

/-- Orientation of a node traversal (`+`/`>` is Forward, `-`/`<` is Backward). -/
inductive Orientation where
  | Forward : Orientation
  | Backward : Orientation
deriving DecidableEq, Repr

/-- Flip an orientation. -/
def Orientation.flip : Orientation → Orientation
  | .Forward => .Backward
  | .Backward => .Forward

/-- Modelled from the spec (the `ItemTable` type lives in the crate's missing
`util` module): per-bucket item lists and per-bucket, per-path prefix sums.
Buckets are indexed by `Nat`; only indices below `SIZE_T` are ever touched. -/
structure ItemTable where
  items : Nat → List Nat
  id_prefsum : Nat → Nat → Nat

/-- Modelled from the spec: `ItemTable::new` starts with empty buckets and
all-zero prefix sums. -/
def ItemTable.new : ItemTable :=
  { items := fun _ => [], id_prefsum := fun _ _ => 0 }

/-- Modelled from the spec (missing `util` module): a bitset over item ids,
optionally annotated with per-id recorded bp sub-intervals. -/
structure ActiveTable where
  items : Nat → Bool
  annot : Option (Nat → List (Nat × Nat))

/-- Modelled from the spec: `ActiveTable::activate` flags one id. -/
def ActiveTable.activate (m : ActiveTable) (sid : Nat) : ActiveTable :=
  { m with items := fun k => if k = sid then true else m.items k }

/-- Modelled from the spec: `ActiveTable::with_annotation`. -/
def ActiveTable.withAnnot (m : ActiveTable) : Bool :=
  m.annot.isSome

/-- Modelled from the spec: `ActiveTable::activate_n_annotate` flags the id and
records the masked sub-interval `[a, b)` of a node of length `l` for it. -/
def ActiveTable.activateAnnot (m : ActiveTable) (sid _l a b : Nat) : ActiveTable :=
  { items := fun k => if k = sid then true else m.items k,
    annot :=
      match m.annot with
      | none => none
      | some f => some (fun k => if k = sid then f k ++ [(a, b)] else f k) }

/-- Modelled from the spec (missing `util` module): a mapping from node id to
the list of included bp sub-intervals recorded for it. -/
structure IntervalContainer where
  data : Nat → List (Nat × Nat)

/-- Modelled from the spec: membership test of `IntervalContainer`. -/
def IntervalContainer.containsId (c : IntervalContainer) (sid : Nat) : Bool :=
  !(c.data sid).isEmpty

/-- Modelled from the spec: record a sub-interval for a node. -/
def IntervalContainer.add (c : IntervalContainer) (sid a b : Nat) : IntervalContainer :=
  { data := fun k => if k = sid then c.data k ++ [(a, b)] else c.data k }

/-- Modelled from the spec: drop the entry of a node (used once a node is seen
fully covered). -/
def IntervalContainer.remove (c : IntervalContainer) (sid : Nat) : IntervalContainer :=
  { data := fun k => if k = sid then [] else c.data k }

/-- Canonical edge key. Modelled from the spec (missing `graph_broker/graph.rs`):
an unordered pair of oriented endpoints. -/
structure Edge where
  u : Nat
  uo : Orientation
  v : Nat
  vo : Orientation
deriving DecidableEq, Repr

/-- Modelled from the spec: `Edge::canonical` puts the smaller `NodeId` first
(flipping both orientations when swapping); on equal ids the Forward endpoint
comes first. Claims below use it only as a lookup key. -/
def Edge.canonical (u : Nat) (uo : Orientation) (v : Nat) (vo : Orientation) : Edge :=
  if u < v then ⟨u, uo, v, vo⟩
  else if v < u then ⟨v, vo.flip, u, uo.flip⟩
  else if uo = .Forward then ⟨u, uo, v, vo⟩
  else ⟨v, vo.flip, u, uo.flip⟩

/-- Modelled from the spec (missing `graph_broker/graph.rs`): the dense id
spaces of `GraphStorage`. Node names are abstracted to `Nat`. -/
structure GraphStorage where
  node2id : Nat → Option Nat
  node_len : Nat → Nat
  edge2id : Edge → Option Nat

/-- Modelled from the spec (missing `util` module): a sorted interval list
intersects a half-open span when some interval overlaps it. -/
def intersects (v : List (Nat × Nat)) (el : Nat × Nat) : Bool :=
  v.any (fun se => decide (max se.1 el.1 < min se.2 el.2))

/-- Modelled from the spec (missing `util` module): the span is fully contained
in the (sorted, merged) interval list when one interval contains it. -/
def is_contained (v : List (Nat × Nat)) (el : Nat × Nat) : Bool :=
  v.any (fun se => decide (se.1 ≤ el.1 ∧ el.2 ≤ se.2))

/-- The GFA count type (`util::CountType`). -/
inductive CountType where
  | Node : CountType
  | Bp : CountType
  | Edge : CountType
  | All : CountType
deriving DecidableEq, Repr

/-- The mutable state threaded through `update_tables`: the item table plus the
two optional capabilities (`subset_covered_bps`, `exclude_table`). -/
structure UtState where
  tbl : ItemTable
  cov : Option IntervalContainer
  ex : Option ActiveTable

/-- `item_table.items[idx].push(id); item_table.id_prefsum[idx][num_path+1] += 1;`
with `idx = id % SIZE_T` — the append-and-increment critical section. -/
def pushItem (id numPath : Nat) (t : ItemTable) : ItemTable :=
  { items := fun k => if k = id % SIZE_T then t.items k ++ [id] else t.items k,
    id_prefsum := fun k q =>
      if k = id % SIZE_T ∧ q = numPath + 1 then t.id_prefsum k q + 1 else t.id_prefsum k q }

/-- The closing prefix-sum pass
`for i in 0..SIZE_T { id_prefsum[i][num_path+1] += id_prefsum[i][num_path] }`. -/
def closePrefsum (numPath : Nat) (t : ItemTable) : ItemTable :=
  { t with
    id_prefsum := fun k q =>
      if k < SIZE_T ∧ q = numPath + 1 then t.id_prefsum k q + t.id_prefsum k numPath
      else t.id_prefsum k q }

/-- `(a, b) ← (l - b, l - a)` when the orientation is Backward
(from `update_tables`: "reverse coverage interval in case of backward
orientation"); Forward leaves the pair unchanged. -/
def orientPair (o : Orientation) (l a b : Nat) : Nat × Nat :=
  match o with
  | .Forward => (a, b)
  | .Backward => (l - b, l - a)

/-- The container update of `update_tables`: if the node is fully covered, make
sure no partial entry remains; otherwise record the sub-interval. -/
def covUpdate (sid l a b : Nat) : Option IntervalContainer → Option IntervalContainer
  | none => none
  | some c =>
      some (if b - a = l then (if c.containsId sid then c.remove sid else c) else c.add sid a b)

/-- The include-cursor loop of `update_tables` for one node `(sid, o)` of
length `l` at path offset `p`: walks the remaining include intervals, appends
the node and records clipped (and orientation-reversed) sub-intervals, and
returns the remaining intervals together with the updated state and the
`included` / `included_bp` counters. -/
def incNodeLoop (sid : Nat) (o : Orientation) (l p numPath : Nat) :
    List (Nat × Nat) → UtState → Nat → Nat → List (Nat × Nat) × UtState × Nat × Nat
  | [], st, included, includedBp => ([], st, included, includedBp)
  | (s, e) :: rest, st, included, includedBp =>
    if s < p + l then
      if e > p then
        let a0 := if s > p then s - p else 0
        if e < p + l then
          let ab := orientPair o l a0 (e - p)
          let st1 : UtState :=
            { st with tbl := pushItem sid numPath st.tbl,
                      cov := covUpdate sid l ab.1 ab.2 st.cov }
          incNodeLoop sid o l p numPath rest st1 (included + 1) (includedBp + (ab.2 - ab.1))
        else
          let ab := orientPair o l a0 l
          let st1 : UtState :=
            { st with tbl := pushItem sid numPath st.tbl,
                      cov := covUpdate sid l ab.1 ab.2 st.cov }
          ((s, e) :: rest, st1, included + 1, includedBp + (ab.2 - ab.1))
      else
        incNodeLoop sid o l p numPath rest st included includedBp
    else ((s, e) :: rest, st, included, includedBp)

/-- The exclude-cursor loop of `update_tables` for one node: flags the node in
the exclude table (annotated with the reversed clipped interval when the table
carries annotations) and returns the remaining exclude intervals, the table and
the `excluded` counter. -/
def excNodeLoop (sid : Nat) (o : Orientation) (l p : Nat) :
    List (Nat × Nat) → Option ActiveTable → Nat → List (Nat × Nat) × Option ActiveTable × Nat
  | [], ex, excluded => ([], ex, excluded)
  | (s, e) :: rest, ex, excluded =>
    if s < p + l then
      if e > p then
        let a0 := if s > p then s - p else 0
        if e < p + l then
          let ab := orientPair o l a0 (e - p)
          match ex with
          | some m =>
              excNodeLoop sid o l p rest
                (some (if m.withAnnot then m.activateAnnot sid l ab.1 ab.2 else m.activate sid))
                (excluded + 1)
          | none => excNodeLoop sid o l p rest none excluded
        else
          let ab := orientPair o l a0 l
          match ex with
          | some m =>
              ((s, e) :: rest,
               some (if m.withAnnot then m.activateAnnot sid l ab.1 ab.2 else m.activate sid),
               excluded + 1)
          | none => ((s, e) :: rest, none, excluded)
      else
        excNodeLoop sid o l p rest ex excluded
    else ((s, e) :: rest, ex, excluded)

/-- The token loop of `update_tables`: runs the include and exclude cursor
loops for each token, terminating early once both cursors are exhausted. -/
def updateTablesGo (gs : GraphStorage) (numPath : Nat) :
    List (Nat × Orientation) → List (Nat × Nat) → List (Nat × Nat) → Nat → UtState →
    Nat → Nat → UtState × Nat × Nat
  | [], _inc, _exc, _p, st, included, includedBp => (st, included, includedBp)
  | (sid, o) :: rest, inc, exc, p, st, included, includedBp =>
    let l := gs.node_len sid
    let r1 := incNodeLoop sid o l p numPath inc st included includedBp
    let r2 := excNodeLoop sid o l p exc r1.2.1.ex 0
    let st2 : UtState := { r1.2.1 with ex := r2.2.1 }
    if r1.1 = [] ∧ r2.1 = [] then (st2, r1.2.2.1, r1.2.2.2)
    else updateTablesGo gs numPath rest r1.1 r2.1 (p + l) st2 r1.2.2.1 r1.2.2.2

/-- `update_tables` from `src/graph_broker/util.rs`: the cursor-based update
for Node/Bp counts. Mirrors the source exactly, including the early return
(before the closing prefix-sum pass) when the token list is empty. Returns the
updated state and the `(included, included_bp)` pair. -/
def update_tables (gs : GraphStorage) (numPath : Nat) (path : List (Nat × Orientation))
    (inc exc : List (Nat × Nat)) (offset : Nat) (st : UtState) : UtState × Nat × Nat :=
  if path = [] then (st, 0, 0)
  else
    let r := updateTablesGo gs numPath path inc exc offset st 0 0
    ({ r.1 with tbl := closePrefsum numPath r.1.tbl }, r.2.1, r.2.2)

/-- Head check `i < include_coords.len() && include_coords[i].0 < p + l` of
`update_tables_edgecount`, on the remaining (cursor-advanced) interval list. -/
def headStarts (v : List (Nat × Nat)) (p l : Nat) : Bool :=
  match v with
  | [] => false
  | (s, _) :: _ => decide (s < p + l)

/-- The pair loop of `update_tables_edgecount`: for each consecutive oriented
pair, advance both cursors past intervals ending at or before `p`, look up the
canonical edge (an unknown edge is fatal), conditionally append the edge id and
flag it in the exclude table, and stop early once both cursors are exhausted. -/
def updateTablesEdgecountGo (gs : GraphStorage) (numPath : Nat) :
    Nat × Orientation → List (Nat × Orientation) → List (Nat × Nat) → List (Nat × Nat) →
    Nat → ItemTable → Option ActiveTable → Except Unit (ItemTable × Option ActiveTable)
  | _prev, [], _inc, _exc, _p, tbl, ex => .ok (tbl, ex)
  | (s1, o1), (s2, o2) :: rest, inc, exc, p, tbl, ex =>
    let inc1 := inc.dropWhile (fun se => decide (se.2 ≤ p))
    let exc1 := exc.dropWhile (fun se => decide (se.2 ≤ p))
    let l := gs.node_len s2
    match gs.edge2id (Edge.canonical s1 o1 s2 o2) with
    | none => .error ()
    | some eid =>
      let tbl1 := if headStarts inc1 p l then pushItem eid numPath tbl else tbl
      if ex.isSome ∧ headStarts exc1 p l then
        updateTablesEdgecountGo gs numPath (s2, o2) rest inc1 exc1 (p + l) tbl1
          ((ex.map (fun m => m.activate eid)))
      else if inc1 = [] ∧ exc1 = [] then .ok (tbl1, ex)
      else updateTablesEdgecountGo gs numPath (s2, o2) rest inc1 exc1 (p + l) tbl1 ex

/-- `update_tables_edgecount` from `src/graph_broker/util.rs`: edges sit
between nodes, so the initial cursor is offset by the first node's length; the
closing prefix-sum pass runs on every non-error exit. An unknown edge is a
fatal error (source: `panic!("unknown edge ...")`), modelled as `Except.error`. -/
def update_tables_edgecount (gs : GraphStorage) (numPath : Nat)
    (path : List (Nat × Orientation)) (inc exc : List (Nat × Nat)) (offset : Nat)
    (tbl : ItemTable) (ex : Option ActiveTable) : Except Unit (ItemTable × Option ActiveTable) :=
  match path with
  | [] => .ok (closePrefsum numPath tbl, ex)
  | h :: t =>
    let p0 := offset + gs.node_len h.1
    match updateTablesEdgecountGo gs numPath h t inc exc p0 tbl ex with
    | .error u => .error u
    | .ok r => .ok (closePrefsum numPath r.1, r.2)

/-- `parse_path_seq_to_item_vec` / `parse_walk_seq_to_item_vec`: resolve each
token's node name through `GraphStorage`; an unknown node is fatal (source:
`panic!("unknown node ...")`), modelled as `Except.error`. Byte-splitting is
abstracted away: the input is the list of already-split (name, orientation)
tokens. -/
def parse_path_seq_to_item_vec (gs : GraphStorage) :
    List (Nat × Orientation) → Except Unit (List (Nat × Orientation))
  | [] => .ok []
  | t :: rest =>
    match gs.node2id t.1 with
    | none => .error ()
    | some sid =>
      match parse_path_seq_to_item_vec gs rest with
      | .error u => .error u
      | .ok l => .ok ((sid, t.2) :: l)

/-- The slice `items[k][id_prefsum[k][num_path] .. id_prefsum[k][num_path+1]]`
of one bucket (in-range in every reachable state). -/
def pathSlice (t : ItemTable) (numPath k : Nat) : List Nat :=
  ((t.items k).drop (t.id_prefsum k numPath)).take
    (t.id_prefsum k (numPath + 1) - t.id_prefsum k numPath)

/-- The exclude-flagging pass shared by `parse_path_seq_update_tables` and
`parse_walk_seq_update_tables`: "if exclude table is given, we assume that all
nodes of the path are excluded" — every id in this path's bucket slices is
flagged. -/
def flagPathExcluded (t : ItemTable) (numPath : Nat) (m : ActiveTable) : ActiveTable :=
  { m with
    items := fun id =>
      m.items id || (List.range SIZE_T).any (fun k => (pathSlice t numPath k).contains id) }

/-- `parse_path_seq_update_tables` / `parse_walk_seq_update_tables` from
`src/graph_broker/util.rs`: the parallel fast path. The rayon workers append
each resolved node id to its bucket under the bucket mutex; the argument list
`sids` is the tokens in one arbitrary completion schedule (a permutation of the
parsed token sequence). Afterwards one pass closes the prefix sums (summing the
per-path counts into `num_nodes_path`), `bp_len` is the atomic sum of node
lengths, and, when an exclude table is present, all nodes of the path are
flagged as excluded. -/
def parse_path_seq_update_tables (gs : GraphStorage) (numPath : Nat) (sids : List Nat)
    (tbl : ItemTable) (ex : Option ActiveTable) :
    ItemTable × Option ActiveTable × Nat × Nat :=
  let tbl1 := sids.foldl (fun t sid => pushItem sid numPath t) tbl
  let bpLen := (sids.map gs.node_len).sum
  let numNodes := ((List.range SIZE_T).map (fun k => tbl1.id_prefsum k (numPath + 1))).sum
  let tbl2 := closePrefsum numPath tbl1
  let ex1 :=
    match ex with
    | none => none
    | some m => some (flagPathExcluded tbl2 numPath m)
  (tbl2, ex1, numNodes, bpLen)

/-- One `P`/`W` line as seen by the scanner after identifier parsing: the raw
span from the path segment's coordinates (`(0, USIZE_MAX)` when absent), the
per-path results of the `include_map` / `exclude_map` lookups (`[]` when the
path has no entry), and the token stream. `name` stands for the path segment
key used in the `paths_len` map. -/
structure GfaLine where
  name : Nat
  span : Nat × Nat
  inc : List (Nat × Nat)
  exc : List (Nat × Nat)
  tokens : List (Nat × Orientation)

/-- The state threaded through `parse_gfa_paths_walks`. -/
structure ScanState where
  st : UtState
  pathsLen : List (Nat × Nat × Nat)
  numPath : Nat

/-- The resolved include coordinates of a line: the complete interval
`[(0, usize::MAX)]` when no include list was given, else the map lookup. -/
def effIncludeCoords (includeSome : Bool) (line : GfaLine) : List (Nat × Nat) :=
  if includeSome then line.inc else [(0, USIZE_MAX)]

/-- The resolved exclude coordinates of a line: empty when no exclude list was
given, else the map lookup. -/
def effExcludeCoords (excludeSome : Bool) (line : GfaLine) : List (Nat × Nat) :=
  if excludeSome then line.exc else []

/-- The fast-path dispatch condition of `parse_gfa_paths_walks` (and of
`parse_gfa_paths_walks_multiple`, per count type): not an edge count, and the
raw span is contained in the resolved include coordinates (or there is no
include list), and likewise for the exclude coordinates. -/
def fastPathCond (count : CountType) (includeSome : Bool) (inc : List (Nat × Nat))
    (excludeSome : Bool) (exc : List (Nat × Nat)) (span : Nat × Nat) : Bool :=
  decide (count ≠ CountType.Edge) &&
    (!includeSome || is_contained inc span) &&
    (!excludeSome || is_contained exc span)

/-- The spec's description of the fast-path condition ("when the path is fully
contained in its include coords and touches no exclude coords"), stated for
comparison with `fastPathCond`; this definition follows the spec's words, not
the source. -/
def specFastPathClaim (count : CountType) (inc exc : List (Nat × Nat))
    (span : Nat × Nat) : Bool :=
  decide (count ≠ CountType.Edge) && is_contained inc span && !(intersects exc span)

/-- One iteration of the `P`/`W` branch of `parse_gfa_paths_walks`: resolve the
coordinates, skip the line (carrying prefix sums) when the raw span meets
neither list, else dispatch to the fast path or to the cursor-based updates,
recording `paths_len` entries for non-edge counts. `CountType.All` is
`unreachable!` in the source. -/
def processLine (count : CountType) (includeSome excludeSome : Bool) (gs : GraphStorage)
    (line : GfaLine) (s : ScanState) : Except Unit ScanState :=
  let inc := effIncludeCoords includeSome line
  let exc := effExcludeCoords excludeSome line
  let span := line.span
  if includeSome && !intersects inc span && !intersects exc span then
    .ok { s with st := { s.st with tbl := closePrefsum s.numPath s.st.tbl },
                 numPath := s.numPath + 1 }
  else if fastPathCond count includeSome inc excludeSome exc span then
    match parse_path_seq_to_item_vec gs line.tokens with
    | .error u => .error u
    | .ok sids =>
      let exArg := if exc.isEmpty then none else s.st.ex
      let r := parse_path_seq_update_tables gs s.numPath (sids.map Prod.fst) s.st.tbl exArg
      let newEx := if exc.isEmpty then s.st.ex else r.2.1
      .ok { st := { s.st with tbl := r.1, ex := newEx },
            pathsLen := s.pathsLen ++ [(line.name, r.2.2.1, r.2.2.2)],
            numPath := s.numPath + 1 }
  else
    match parse_path_seq_to_item_vec gs line.tokens with
    | .error u => .error u
    | .ok sids =>
      match count with
      | .Node | .Bp =>
        let r := update_tables gs s.numPath sids inc exc span.1 s.st
        .ok { st := r.1,
              pathsLen := s.pathsLen ++ [(line.name, r.2.1, r.2.2)],
              numPath := s.numPath + 1 }
      | .Edge =>
        match update_tables_edgecount gs s.numPath sids inc exc span.1 s.st.tbl s.st.ex with
        | .error u => .error u
        | .ok r =>
          .ok { st := { s.st with tbl := r.1, ex := r.2 },
                pathsLen := s.pathsLen,
                numPath := s.numPath + 1 }
      | .All => .error ()

/-- `parse_gfa_paths_walks`: the line loop over the `P`/`W` records of the
input, with the fatal parse errors propagated. -/
def parse_gfa_paths_walks (count : CountType) (includeSome excludeSome : Bool)
    (gs : GraphStorage) : List GfaLine → ScanState → Except Unit ScanState
  | [], s => .ok s
  | line :: rest, s =>
    match processLine count includeSome excludeSome gs line s with
    | .error u => .error u
    | .ok s1 => parse_gfa_paths_walks count includeSome excludeSome gs rest s1

/-- A handle from `src/main.rs` (`handlegraph::Handle`): a node number plus a
reverse flag. -/
structure Handle where
  num : Nat
  isRev : Bool
deriving DecidableEq, Repr

/-- `Handle::forward()`: the same node, forward orientation. -/
def Handle.forward (h : Handle) : Handle := ⟨h.num, false⟩

/-- `Handle::flip()`: the same node, opposite orientation; traversing an edge
in the other direction visits the flipped handles in swapped order. -/
def Handle.flip (h : Handle) : Handle := ⟨h.num, !h.isRev⟩

/-- The inline edge canonicalisation of `cumulative_count_edges` in
`src/main.rs`: for a traversal step `v` then `u`, the key is
`(u.forward(), v.forward())` when both handles are reverse, or when the
orientations differ and `v`'s number is larger; otherwise the pair `(v, u)`
itself. -/
def canonicalEdgeMain (v u : Handle) : Handle × Handle :=
  if (v.isRev && u.isRev) || ((v.isRev != u.isRev) && decide (v.num > u.num)) then
    (u.forward, v.forward)
  else (v, u)

/-! ### Concrete fixtures used by witnesses and counterexamples -/

/-- A small concrete graph storage: nodes `0..3` are registered (name `n` maps
to id `n`, length `n + 2`); edges between registered nodes get ids. -/
def gsEx : GraphStorage :=
  { node2id := fun n => if n ≤ 3 then some n else none,
    node_len := fun n => n + 2,
    edge2id := fun e => if e.u ≤ 3 ∧ e.v ≤ 3 then some (e.u * 10 + e.v) else none }

/-- An empty interval container. -/
def covEx : IntervalContainer := ⟨fun _ => []⟩

/-- An empty, annotated exclude table. -/
def exAnnotEx : ActiveTable := ⟨fun _ => false, some (fun _ => [])⟩

/-- An empty, unannotated exclude table. -/
def exEx : ActiveTable := ⟨fun _ => false, none⟩

/-- A fresh scan state with an (empty) interval container capability. -/
def stEx : UtState := { tbl := ItemTable.new, cov := some covEx, ex := none }

/-- A fresh scanner state. -/
def ssEx : ScanState := { st := stEx, pathsLen := [], numPath := 0 }

/-- The table state after an imaginary path 0 appended item `0` to bucket 0:
`items[0] = [0]`, `id_prefsum[0][1] = 1`, everything else 0. -/
def tblC1 : ItemTable :=
  { items := fun b => if b = 0 then [0] else [],
    id_prefsum := fun b q => if b = 0 ∧ q = 1 then 1 else 0 }

/-- `tblC1` packed as an `update_tables` state without optional capabilities. -/
def stC1 : UtState := { tbl := tblC1, cov := none, ex := none }

/-- A `W` line whose raw span `[5, 5)` is empty but whose walk holds one token,
with no include or exclude entry. -/
def lineC4 : GfaLine :=
  { name := 0, span := (5, 5), inc := [], exc := [], tokens := [(1, Orientation.Forward)] }

/-- An edge-count line over registered nodes with no coordinate restriction. -/
def lineEdgeEx : GfaLine :=
  { name := 0, span := (0, USIZE_MAX), inc := [], exc := [],
    tokens := [(1, Orientation.Forward), (2, Orientation.Forward)] }

/-! ### Specification predicates -/

/-- Some consecutive oriented pair of the token list has no edge id under the
canonical-edge lookup. -/
def edgeAnyUnknown (gs : GraphStorage) : List (Nat × Orientation) → Bool
  | [] => false
  | [_] => false
  | a :: b :: rest =>
    (gs.edge2id (Edge.canonical a.1 a.2 b.1 b.2)).isNone || edgeAnyUnknown gs (b :: rest)

/-- The exact bp mass of a node span under an interval list: the number of
offsets `off < l` such that position `p + off` lies in the union of the
intervals — i.e. the length of the intersection of `[p, p + l)` with the union
of the intervals. -/
def coveredLen (p l : Nat) (ints : List (Nat × Nat)) : Nat :=
  ((Finset.range l).filter
    (fun off => ints.any (fun se => decide (se.1 ≤ p + off) && decide (p + off < se.2)) = true)).card

/-- Reflection of a sub-interval of a length-`l` node, as performed for
Backward-oriented tokens. -/
def revPair (l : Nat) (ab : Nat × Nat) : Nat × Nat := (l - ab.2, l - ab.1)

/-- Two optional interval containers (from a Forward run and a Backward run of
the same node) agree everywhere except at `sid`, where the Backward side holds
the reflections of the Forward side's recorded sub-intervals. -/
def covOrientRel (l sid : Nat) (oF oB : Option IntervalContainer) : Prop :=
  ∃ cF cB, oF = some cF ∧ oB = some cB ∧
    (∀ k, k ≠ sid → cB.data k = cF.data k) ∧
    cB.data sid = (cF.data sid).map (revPair l)

/-- Two optional exclude tables (from a Forward run and a Backward run of the
same node) have identical flag bits, and their annotations — when present —
agree everywhere except at `sid`, where the Backward side holds the
reflections of the Forward side's recorded sub-intervals. -/
def atOrientRel (l sid : Nat) (oF oB : Option ActiveTable) : Prop :=
  (oF = none ∧ oB = none) ∨
  ∃ mF mB, oF = some mF ∧ oB = some mB ∧ mF.items = mB.items ∧
    ((mF.annot = none ∧ mB.annot = none) ∨
      ∃ fF fB, mF.annot = some fF ∧ mB.annot = some fB ∧
        (∀ k, k ≠ sid → fB k = fF k) ∧ fB sid = (fF sid).map (revPair l))

/-! ### Claim theorems -/

/-- Claim C6 (code bug): the edge canonicalisation of `cumulative_count_edges`
in `src/main.rs` is not flip-invariant. Traversing node 1 forward then node 2
backward keeps the key `((1,+),(2,-))`, while the reverse traversal (node 2
forward then node 1 backward) is canonicalised to `((1,+),(2,+))` — the same
edge receives two different keys, contradicting the spec's canonical-edge
property. -/
theorem C6_canonical_edge_not_flip_invariant :
    canonicalEdgeMain ⟨1, false⟩ ⟨2, true⟩ ≠
      canonicalEdgeMain (Handle.flip ⟨2, true⟩) (Handle.flip ⟨1, false⟩) := by
  decide

/-- Claim C1 (code bug): `update_tables` returns before the closing prefix-sum
pass when the parsed token sequence is empty. Starting from a state in which
path 0 appended one item of bucket 0 (`id_prefsum[0][1] = 1`), processing an
empty path 1 appends nothing, yet leaves `id_prefsum[0][2] = 0`, so
`id_prefsum[0][2] = id_prefsum[0][1] + (items appended)` fails. -/
theorem C1_update_tables_empty_path_violation :
    (update_tables gsEx 1 [] [(0, 10)] [] 0 stC1).1.tbl.id_prefsum 0 2 = 0 ∧
    stC1.tbl.id_prefsum 0 1 = 1 ∧
    ((update_tables gsEx 1 [] [(0, 10)] [] 0 stC1).1.tbl.items 0).length =
      (stC1.tbl.items 0).length ∧
    ¬((update_tables gsEx 1 [] [(0, 10)] [] 0 stC1).1.tbl.id_prefsum 0 2 =
        stC1.tbl.id_prefsum 0 1 + 0) := by
  decide

/-- Claim C3, counterexample: a path whose raw span is fully contained in its
exclude coordinates (with no include restriction) takes the parallel fast path
even though it touches exclude coordinates, contradicting the claim that such
paths are processed with the cursor-based update. -/
theorem C3_fast_path_exclude_counterexample :
    fastPathCond CountType.Node false [] true [(0, 100)] (0, 10) = true ∧
    intersects [(0, 100)] (0, 10) = true ∧
    specFastPathClaim CountType.Node [] [(0, 100)] (0, 10) = false := by
  decide

/-- Claim C3, amended: the fast path is taken exactly when the count type is
not Edge, the raw span is fully contained in the resolved include coordinates
(or no include list was given), and the raw span is fully contained in the
path's resolved exclude coordinates (or no exclude list was given). -/
theorem C3_fast_path_condition_amended :
    ∀ (count : CountType) (ig : Bool) (inc : List (Nat × Nat)) (eg : Bool)
      (exc : List (Nat × Nat)) (span : Nat × Nat),
      fastPathCond count ig inc eg exc span = true ↔
        (count ≠ CountType.Edge ∧ (ig = false ∨ is_contained inc span = true) ∧
          (eg = false ∨ is_contained exc span = true)) := by
  intro count ig inc eg exc span
  simp only [fastPathCond, Bool.and_eq_true, Bool.or_eq_true, Bool.not_eq_true',
    decide_eq_true_eq]
  tauto

/-- Claim C4, counterexample: a `W` line with the empty raw span `[5, 5)` and
no include/exclude restriction intersects neither list, yet its token stream is
processed (through the fast path) and one item is appended. -/
theorem C4_empty_span_counterexample :
    intersects (effIncludeCoords false lineC4) lineC4.span = false ∧
    intersects (effExcludeCoords false lineC4) lineC4.span = false ∧
    (processLine CountType.Node false false gsEx lineC4 ssEx).toOption.map
        (fun s => (s.st.tbl.items 1).length) = some 1 ∧
    (ssEx.st.tbl.items 1).length = 0 := by
  decide

/-- Helper: a `P`/`W` line processed under the Edge count type never adds a
`paths_len` entry, whichever branch is taken. -/
theorem processLine_edge_pathsLen (ig eg : Bool) (gs : GraphStorage) (line : GfaLine)
    (s s1 : ScanState) (h : processLine CountType.Edge ig eg gs line s = .ok s1) :
    s1.pathsLen = s.pathsLen := by
  have hf : fastPathCond CountType.Edge ig (effIncludeCoords ig line) eg
      (effExcludeCoords eg line) line.span = false := by
    simp [fastPathCond]
  simp only [processLine, hf, Bool.false_eq_true, if_false] at h
  split at h
  · injection h with h1
    rw [← h1]
  · split at h
    · exact Except.noConfusion h
    · split at h
      · exact Except.noConfusion h
      · injection h with h1
        rw [← h1]

/-- Claim C10: with count type Edge the fast path is never taken, and a whole
scan started with an empty `paths_len` map returns an empty `paths_len` map:
neither the skip branch nor `update_tables_edgecount` records a
`(node_len, bp_len)` entry. -/
theorem C10_edge_scan_empty_paths_len :
    (∀ (ig : Bool) (inc : List (Nat × Nat)) (eg : Bool) (exc : List (Nat × Nat))
        (span : Nat × Nat), fastPathCond CountType.Edge ig inc eg exc span = false) ∧
    ∀ (ig eg : Bool) (gs : GraphStorage) (lines : List GfaLine) (s res : ScanState),
      s.pathsLen = [] →
      parse_gfa_paths_walks CountType.Edge ig eg gs lines s = .ok res →
      res.pathsLen = [] := by
  constructor
  · intro ig inc eg exc span
    simp [fastPathCond]
  · intro ig eg gs lines
    induction lines with
    | nil =>
      intro s res h0 h
      unfold parse_gfa_paths_walks at h
      injection h with h1
      rw [← h1]
      exact h0
    | cons line rest ih =>
      intro s res h0 h
      unfold parse_gfa_paths_walks at h
      split at h
      · exact absurd h (by simp)
      · next s1 heq =>
        exact ih s1 res ((processLine_edge_pathsLen ig eg gs line s s1 heq).trans h0) h

/-- Helper: an `Except` value whose `isOk` test succeeds is an `ok`. -/
theorem exceptOkExists (x : Except Unit ScanState) (h : x.isOk = true) :
    ∃ r, x = .ok r := by
  cases x with
  | error u => simp [Except.isOk, Except.toBool] at h
  | ok r => exact ⟨r, rfl⟩

/-- Witness for C10: a concrete edge-count scan of one line yields an `ok`
state whose `paths_len` map is empty. -/
theorem C10_edge_scan_empty_paths_len_witness :
    (parse_gfa_paths_walks CountType.Edge false false gsEx [lineEdgeEx] ssEx).toOption.map
      ScanState.pathsLen = some [] := by
  obtain ⟨res, hres⟩ :=
    exceptOkExists (parse_gfa_paths_walks CountType.Edge false false gsEx [lineEdgeEx] ssEx)
      (by rfl)
  have hempty := C10_edge_scan_empty_paths_len.2 false false gsEx [lineEdgeEx] ssEx res rfl hres
  rw [hres]
  simp [Except.toOption, hempty]

/-- Helper: resolving a token list with an unknown node name is fatal. -/
theorem parse_seq_unknown_node (gs : GraphStorage) :
    ∀ tokens : List (Nat × Orientation), (∃ t ∈ tokens, gs.node2id t.1 = none) →
      parse_path_seq_to_item_vec gs tokens = .error () := by
  intro tokens
  induction tokens with
  | nil => rintro ⟨t, ht, -⟩; cases ht
  | cons t rest ih =>
    rintro ⟨t0, ht0, hnone⟩
    rcases List.mem_cons.mp ht0 with rfl | hmem
    · simp [parse_path_seq_to_item_vec, hnone]
    · unfold parse_path_seq_to_item_vec
      cases hi : gs.node2id t.1 with
      | none => rfl
      | some sid => rw [ih ⟨t0, hmem, hnone⟩]

/-- Helper: with the complete include interval and no exclude intervals, the
pair loop of `update_tables_edgecount` fails as soon as it meets a pair whose
canonical edge is unknown (the cursors can never exhaust, so it reaches every
pair). -/
theorem ecGo_unknown_edge (gs : GraphStorage) (numPath : Nat) :
    ∀ (rest : List (Nat × Orientation)) (prev : Nat × Orientation) (p : Nat)
      (tbl : ItemTable) (ex : Option ActiveTable),
      p + (rest.map (fun t => gs.node_len t.1)).sum < USIZE_MAX →
      edgeAnyUnknown gs (prev :: rest) = true →
      updateTablesEdgecountGo gs numPath prev rest [(0, USIZE_MAX)] [] p tbl ex
        = .error () := by
  intro rest
  induction rest with
  | nil =>
    intro prev p tbl ex _ hu
    simp [edgeAnyUnknown] at hu
  | cons snd rest ih =>
    rintro ⟨s1, o1⟩ p tbl ex hp hu
    obtain ⟨s2, o2⟩ := snd
    have hplt : p < USIZE_MAX := by
      have h0 := Nat.zero_le ((((s2, o2) :: rest).map (fun t => gs.node_len t.1)).sum)
      omega
    have hdrop : ([((0 : Nat), USIZE_MAX)].dropWhile (fun se => decide (se.2 ≤ p)))
        = [(0, USIZE_MAX)] := by
      simp only [List.dropWhile_cons, decide_eq_true_eq]
      rw [if_neg (by omega)]
    cases hcase : gs.edge2id (Edge.canonical s1 o1 s2 o2) with
    | none =>
      simp [updateTablesEdgecountGo, hdrop, hcase]
    | some eid =>
      simp only [edgeAnyUnknown, hcase, Option.isNone_some, Bool.false_or] at hu
      simp only [updateTablesEdgecountGo, hdrop, hcase, List.dropWhile_nil]
      rw [if_neg (by simp [headStarts]), if_neg (by simp)]
      apply ih (s2, o2) (p + gs.node_len s2) _ ex ?_ hu
      simp only [List.map_cons, List.sum_cons] at hp
      omega

/-- Claim C5: a token naming an unregistered node makes token resolution fail
(`UnknownNode`), and — with the default complete include interval and no
exclude coordinates, under which the cursor loop examines every pair — a
consecutive pair whose canonical edge has no id makes the edge-count update
fail (`UnknownEdge`); neither is silently skipped, and the error aborts the
scan (`Except` short-circuits, so nothing past the offending token is
processed). -/
theorem C5_unknown_node_edge_fatal :
    (∀ (gs : GraphStorage) (tokens : List (Nat × Orientation)),
        (∃ t ∈ tokens, gs.node2id t.1 = none) →
        parse_path_seq_to_item_vec gs tokens = .error ()) ∧
    ∀ (gs : GraphStorage) (numPath : Nat) (pairs : List (Nat × Orientation))
      (tbl : ItemTable) (ex : Option ActiveTable) (offset : Nat),
      offset + (pairs.map (fun t => gs.node_len t.1)).sum < USIZE_MAX →
      edgeAnyUnknown gs pairs = true →
      update_tables_edgecount gs numPath pairs [(0, USIZE_MAX)] [] offset tbl ex
        = .error () := by
  constructor
  · exact parse_seq_unknown_node
  · intro gs numPath pairs tbl ex offset hsum hu
    cases pairs with
    | nil => simp [edgeAnyUnknown] at hu
    | cons h t =>
      have hgo := ecGo_unknown_edge gs numPath t h (offset + gs.node_len h.1) tbl ex
        (by simp only [List.map_cons, List.sum_cons] at hsum; omega) hu
      simp [update_tables_edgecount, hgo]

/-- Witness for C5: node name 9 is unregistered in `gsEx`, so resolution of a
walk containing it fails; the pair (1, 9) has no canonical edge id, so the
edge-count update fails. -/
theorem C5_unknown_node_edge_fatal_witness :
    parse_path_seq_to_item_vec gsEx [(9, Orientation.Forward)] = .error () ∧
    update_tables_edgecount gsEx 0 [(1, Orientation.Forward), (9, Orientation.Forward)]
      [(0, USIZE_MAX)] [] 0 ItemTable.new none = .error () := by
  refine ⟨C5_unknown_node_edge_fatal.1 gsEx [(9, Orientation.Forward)]
      ⟨(9, Orientation.Forward), by simp, rfl⟩,
    C5_unknown_node_edge_fatal.2 gsEx 0 [(1, Orientation.Forward), (9, Orientation.Forward)]
      ItemTable.new none 0 (by decide) (by decide)⟩

/-- Helper: the number of in-node offsets covered by a single interval is the
length of the intersection of the node span with that interval. -/
theorem cardInterval (p l s e : Nat) :
    ((Finset.range l).filter
        (fun off => (decide (s ≤ p + off) && decide (p + off < e)) = true)).card
      = min e (p + l) - max s p := by
  have hico : ((Finset.range l).filter
      (fun off => (decide (s ≤ p + off) && decide (p + off < e)) = true))
      = Finset.Ico (max s p - p) (min e (p + l) - p) := by
    ext x
    simp only [Finset.mem_filter, Finset.mem_range, Finset.mem_Ico, Bool.and_eq_true,
      decide_eq_true_eq]
    omega
  rw [hico, Nat.card_Ico]
  omega

/-- Helper: `coveredLen` splits off a leading interval that is disjoint from
(and left of) the rest of the list. -/
theorem coveredLen_cons (p l s e : Nat) (rest : List (Nat × Nat))
    (hdisj : ∀ y ∈ rest, e ≤ y.1) :
    coveredLen p l ((s, e) :: rest)
      = (min e (p + l) - max s p) + coveredLen p l rest := by
  unfold coveredLen
  have hsplit :
      (Finset.range l).filter
          (fun off => (((s, e) :: rest).any
            (fun se => decide (se.1 ≤ p + off) && decide (p + off < se.2))) = true)
        = ((Finset.range l).filter
            (fun off => (decide (s ≤ p + off) && decide (p + off < e)) = true))
          ∪ ((Finset.range l).filter
              (fun off => (rest.any
                (fun se => decide (se.1 ≤ p + off) && decide (p + off < se.2))) = true)) := by
    ext x
    simp only [Finset.mem_filter, Finset.mem_union, Finset.mem_range, List.any_cons,
      Bool.or_eq_true]
    tauto
  rw [hsplit, Finset.card_union_of_disjoint, cardInterval]
  rw [Finset.disjoint_left]
  intro x hx1 hx2
  simp only [Finset.mem_filter, Finset.mem_range, Bool.and_eq_true, decide_eq_true_eq,
    List.any_eq_true] at hx1 hx2
  obtain ⟨-, -, hxe⟩ := hx1
  obtain ⟨-, y, hy, hy1, -⟩ := hx2
  have := hdisj y hy
  omega

/-- Helper: intervals lying entirely at or beyond the node's right end cover
nothing of it. -/
theorem coveredLen_zero (p l : Nat) (ints : List (Nat × Nat))
    (hall : ∀ y ∈ ints, p + l ≤ y.1) : coveredLen p l ints = 0 := by
  unfold coveredLen
  rw [Finset.card_eq_zero, Finset.filter_eq_empty_iff]
  intro x hx
  simp only [Finset.mem_range] at hx
  simp only [List.any_eq_true, Bool.and_eq_true, decide_eq_true_eq, not_exists]
  rintro y ⟨hy, hy1, hy2⟩
  have := hall y hy
  omega

/-- Helper: an interval ending at or before the node offset covers nothing, so
it can be dropped. -/
theorem coveredLen_skip (p l s e : Nat) (rest : List (Nat × Nat)) (he : e ≤ p) :
    coveredLen p l ((s, e) :: rest) = coveredLen p l rest := by
  unfold coveredLen
  congr 1
  apply Finset.filter_congr
  intro x hx
  simp only [List.any_cons, Bool.or_eq_true, Bool.and_eq_true, decide_eq_true_eq]
  constructor
  · rintro (⟨-, h2⟩ | h)
    · omega
    · exact h
  · intro h
    exact Or.inr h

/-- Helper: in a start-sorted, pairwise-disjoint interval list, every later
interval starts at or after the end of the first one. -/
theorem chain_head_le :
    ∀ (rest : List (Nat × Nat)) (s e : Nat),
      List.Chain' (fun x y => x.2 ≤ y.1) ((s, e) :: rest) →
      (∀ x ∈ rest, x.1 ≤ x.2) → ∀ y ∈ rest, e ≤ y.1 := by
  intro rest
  induction rest with
  | nil =>
    intro s e _ _ y hy
    cases hy
  | cons hd tl ih =>
    intro s e hc hs y hy
    have h1 : e ≤ hd.1 := (List.chain'_cons.mp hc).1
    rcases List.mem_cons.mp hy with rfl | hmem
    · exact h1
    · have h2 := ih hd.1 hd.2 (List.chain'_cons.mp hc).2 (fun x hx => hs x (List.mem_cons_of_mem hd hx)) y hmem
      have h3 : hd.1 ≤ hd.2 := hs hd (List.mem_cons_self hd tl)
      omega

/-- Helper: reversing a clipped sub-interval of a length-`l` node keeps its
length. -/
theorem orientPair_diff (o : Orientation) (l a b : Nat) (h1 : a ≤ b) (h2 : b ≤ l) :
    (orientPair o l a b).2 - (orientPair o l a b).1 = b - a := by
  cases o
  · simp only [orientPair]
  · simp only [orientPair]
    omega

/-- Claim C2, amended: when the include intervals are start-sorted and pairwise
disjoint (as the mask normalisation produces), the per-node include loop of
`update_tables` adds to `included_bp` exactly the length of the intersection of
the node span `[p, p + l)` with the union of the intervals — for Forward and
Backward orientations alike. -/
theorem C2_include_bp_exact_of_disjoint :
    ∀ (ints : List (Nat × Nat)) (sid : Nat) (o : Orientation) (l p numPath : Nat)
      (st : UtState) (included includedBp : Nat),
      List.Chain' (fun x y => x.2 ≤ y.1) ints →
      (∀ x ∈ ints, x.1 ≤ x.2) →
      (incNodeLoop sid o l p numPath ints st included includedBp).2.2.2
        = includedBp + coveredLen p l ints := by
  intro ints
  induction ints with
  | nil =>
    intro sid o l p numPath st included includedBp _ _
    simp [incNodeLoop, coveredLen]
  | cons hd rest ih =>
    rintro sid o l p numPath st included includedBp hc hs
    obtain ⟨s, e⟩ := hd
    have hse : s ≤ e := hs (s, e) (List.mem_cons_self _ _)
    have hctl : List.Chain' (fun x y => x.2 ≤ y.1) rest := (List.chain'_cons'.mp hc).2
    have hstl : ∀ x ∈ rest, x.1 ≤ x.2 := fun x hx => hs x (List.mem_cons_of_mem _ hx)
    have hdj : ∀ y ∈ rest, e ≤ y.1 := chain_head_le rest s e hc hstl
    by_cases h1 : s < p + l
    · by_cases h2 : e > p
      · have ha : (if s > p then s - p else 0) = max s p - p := by
          split <;> omega
        by_cases h3 : e < p + l
        · simp only [incNodeLoop, if_pos h1, if_pos h2, if_pos h3, ha]
          rw [ih _ _ _ _ _ _ _ _ hctl hstl,
            orientPair_diff o l (max s p - p) (e - p) (by omega) (by omega),
            coveredLen_cons p l s e rest hdj]
          omega
        · simp only [incNodeLoop, if_pos h1, if_pos h2, if_neg h3, ha]
          rw [orientPair_diff o l (max s p - p) l (by omega) (by omega),
            coveredLen_cons p l s e rest hdj,
            coveredLen_zero p l rest (fun y hy => by have := hdj y hy; omega)]
          omega
      · simp only [incNodeLoop, if_pos h1, if_neg h2]
        rw [ih _ _ _ _ _ _ _ _ hctl hstl, coveredLen_skip p l s e rest (by omega)]
    · have hall : ∀ y ∈ (s, e) :: rest, p + l ≤ y.1 := by
        rintro y hy
        rcases List.mem_cons.mp hy with rfl | hmem
        · omega
        · have := hdj y hmem
          omega
      simp only [incNodeLoop, if_neg h1]
      rw [coveredLen_zero p l ((s, e) :: rest) hall]
      omega

/-- Claim C2, counterexample: with the overlapping include intervals
`[0, 5)` and `[3, 8)` the include loop records 10 bp for a node of length 10 at
offset 0, while the intersection of the node span with the union of the
intervals has length 8 (the source itself warns that this accounting "is not
exact"). -/
theorem C2_include_bp_overlap_counterexample :
    (incNodeLoop 5 Orientation.Forward 10 0 0 [(0, 5), (3, 8)] stEx 0 0).2.2.2 = 10 ∧
    coveredLen 0 10 [(0, 5), (3, 8)] = 8 ∧
    (incNodeLoop 5 Orientation.Forward 10 0 0 [(0, 5), (3, 8)] stEx 0 0).2.2.2
      ≠ coveredLen 0 10 [(0, 5), (3, 8)] := by
  decide

/-- Witness for C2: on the sorted disjoint intervals `[2, 4)` and `[6, 20)` the
include loop records exactly `2 + 4 = 6` bp of a length-10 node at offset 0. -/
theorem C2_include_bp_exact_of_disjoint_witness :
    (incNodeLoop 5 Orientation.Backward 10 0 0 [(2, 4), (6, 20)] stEx 0 0).2.2.2
      = 0 + coveredLen 0 10 [(2, 4), (6, 20)] ∧
    coveredLen 0 10 [(2, 4), (6, 20)] = 6 :=
  ⟨C2_include_bp_exact_of_disjoint [(2, 4), (6, 20)] 5 Orientation.Backward 10 0 0 stEx 0 0
      (by simp) (by decide),
    by decide⟩

/-- Helper: the bucket contents after the fast-path appends are the old
contents followed by the schedule's tokens of that bucket, in schedule order. -/
theorem foldl_pushItem_items (numPath : Nat) :
    ∀ (sids : List Nat) (t : ItemTable) (b : Nat),
      ((sids.foldl (fun t sid => pushItem sid numPath t) t).items b)
        = t.items b ++ sids.filter (fun sid => decide (sid % SIZE_T = b)) := by
  intro sids
  induction sids with
  | nil =>
    intro t b
    simp
  | cons x xs ih =>
    intro t b
    rw [List.foldl_cons, ih, List.filter_cons]
    by_cases hb : b = x % SIZE_T
    · subst hb
      simp [pushItem]
    · simp [pushItem, hb, Ne.symm hb]

/-- Helper: the fast-path appends increment only row `numPath + 1`, by the
number of schedule tokens of the bucket. -/
theorem foldl_pushItem_prefsum (numPath : Nat) :
    ∀ (sids : List Nat) (t : ItemTable) (b q : Nat),
      ((sids.foldl (fun t sid => pushItem sid numPath t) t).id_prefsum b q)
        = t.id_prefsum b q +
          (if q = numPath + 1 then sids.countP (fun sid => decide (sid % SIZE_T = b)) else 0) := by
  intro sids
  induction sids with
  | nil =>
    intro t b q
    simp
  | cons x xs ih =>
    intro t b q
    rw [List.foldl_cons, ih, List.countP_cons]
    by_cases hq : q = numPath + 1
    · subst hq
      by_cases hb : b = x % SIZE_T
      · subst hb
        simp [pushItem]
        omega
      · simp [pushItem, hb, Ne.symm hb]
    · simp [pushItem, hq]

/-- Helper: in a well-formed pre-state (prefix sums closed up to `numPath`, row
`numPath + 1` zeroed), the bucket slice of the path after a fast-path update is
exactly the schedule's tokens of that bucket. -/
theorem pathSlice_after_fast (numPath : Nat) (sids : List Nat) (tbl : ItemTable)
    (hwf : ∀ b, b < SIZE_T →
      tbl.id_prefsum b numPath = (tbl.items b).length ∧ tbl.id_prefsum b (numPath + 1) = 0) :
    ∀ k, k < SIZE_T →
      pathSlice (closePrefsum numPath (sids.foldl (fun t sid => pushItem sid numPath t) tbl))
          numPath k
        = sids.filter (fun sid => decide (sid % SIZE_T = k)) := by
  intro k hk
  obtain ⟨hlen, hzero⟩ := hwf k hk
  have hne : ¬(numPath = numPath + 1) := by omega
  have e1 : (closePrefsum numPath
        (sids.foldl (fun t sid => pushItem sid numPath t) tbl)).id_prefsum k numPath
      = (tbl.items k).length := by
    simp only [closePrefsum]
    rw [if_neg (fun hcontra => hne hcontra.2), foldl_pushItem_prefsum numPath sids tbl k numPath,
      if_neg hne, hlen]
    omega
  have e2 : (closePrefsum numPath
        (sids.foldl (fun t sid => pushItem sid numPath t) tbl)).id_prefsum k (numPath + 1)
      = sids.countP (fun sid => decide (sid % SIZE_T = k)) + (tbl.items k).length := by
    simp only [closePrefsum]
    rw [if_pos ⟨hk, trivial⟩, foldl_pushItem_prefsum numPath sids tbl k (numPath + 1),
      foldl_pushItem_prefsum numPath sids tbl k numPath, if_pos rfl, if_neg hne, hzero, hlen]
    omega
  have e0 : (closePrefsum numPath
        (sids.foldl (fun t sid => pushItem sid numPath t) tbl)).items k
      = tbl.items k ++ sids.filter (fun sid => decide (sid % SIZE_T = k)) :=
    foldl_pushItem_items numPath sids tbl k
  unfold pathSlice
  rw [e0, e1, e2, Nat.add_sub_cancel, List.drop_left, List.countP_eq_length_filter,
    List.take_length]

/-- Helper: `any` respects pointwise equality on the list. -/
theorem list_any_congr {α : Type} :
    ∀ (l : List α) (f g : α → Bool), (∀ x ∈ l, f x = g x) → l.any f = l.any g := by
  intro l
  induction l with
  | nil =>
    intro f g _
    rfl
  | cons x xs ih =>
    intro f g h
    rw [List.any_cons, List.any_cons, h x (List.mem_cons_self x xs),
      ih f g (fun y hy => h y (List.mem_cons_of_mem x hy))]

/-- Helper: `contains` is invariant under permutation. -/
theorem contains_eq_of_perm {l1 l2 : List Nat} (h : l1.Perm l2) (a : Nat) :
    l1.contains a = l2.contains a := by
  cases hc1 : l1.contains a <;> cases hc2 : l2.contains a
  · rfl
  · exact absurd (List.elem_iff.mpr (h.mem_iff.mpr (List.elem_iff.mp hc2)))
      (by rw [show l1.elem a = l1.contains a from rfl, hc1]; simp)
  · exact absurd (List.elem_iff.mpr (h.mem_iff.mp (List.elem_iff.mp hc1)))
      (by rw [show l2.elem a = l2.contains a from rfl, hc2]; simp)
  · rfl

/-- Helper: collecting the per-bucket filters over all buckets recovers plain
membership: some bucket slice holds `id` exactly when the schedule holds it. -/
theorem range_any_filter_contains (sids : List Nat) (id : Nat) :
    ((List.range SIZE_T).any
        (fun k => (sids.filter (fun s => decide (s % SIZE_T = k))).contains id))
      = sids.contains id := by
  cases hc : sids.contains id
  · rw [List.any_eq_false]
    intro k _
    cases hk : (sids.filter (fun s => decide (s % SIZE_T = k))).contains id
    · simp
    · exfalso
      have hmem : id ∈ sids.filter (fun s => decide (s % SIZE_T = k)) := List.elem_iff.mp hk
      have : id ∈ sids := (List.mem_filter.mp hmem).1
      have : sids.contains id = true := List.elem_iff.mpr this
      rw [hc] at this
      exact Bool.false_ne_true this
  · rw [List.any_eq_true]
    refine ⟨id % SIZE_T, List.mem_range.mpr (Nat.mod_lt id (by decide)), ?_⟩
    exact List.elem_iff.mpr
      (List.mem_filter.mpr ⟨List.elem_iff.mp hc, by simp⟩)

/-- Claim C7: the fast-path update is deterministic up to in-bucket order. Two
schedules of the same token multiset (any two permutations, as produced by two
runs of the rayon workers), started from the same well-formed state, produce
identical prefix sums, per-bucket item lists equal as multisets, identical
exclude tables, and identical `(num_nodes, bp_len)` results — so the
deterministic downstream consumers receive identical inputs. -/
theorem C7_fast_path_deterministic :
    ∀ (gs : GraphStorage) (numPath : Nat) (sids1 sids2 : List Nat) (tbl : ItemTable)
      (ex : Option ActiveTable),
      sids1.Perm sids2 →
      (∀ b, b < SIZE_T →
        tbl.id_prefsum b numPath = (tbl.items b).length ∧
        tbl.id_prefsum b (numPath + 1) = 0) →
      (parse_path_seq_update_tables gs numPath sids1 tbl ex).1.id_prefsum
          = (parse_path_seq_update_tables gs numPath sids2 tbl ex).1.id_prefsum ∧
      (∀ b, ((parse_path_seq_update_tables gs numPath sids1 tbl ex).1.items b).Perm
          ((parse_path_seq_update_tables gs numPath sids2 tbl ex).1.items b)) ∧
      (parse_path_seq_update_tables gs numPath sids1 tbl ex).2.1
          = (parse_path_seq_update_tables gs numPath sids2 tbl ex).2.1 ∧
      (parse_path_seq_update_tables gs numPath sids1 tbl ex).2.2.1
          = (parse_path_seq_update_tables gs numPath sids2 tbl ex).2.2.1 ∧
      (parse_path_seq_update_tables gs numPath sids1 tbl ex).2.2.2
          = (parse_path_seq_update_tables gs numPath sids2 tbl ex).2.2.2 := by
  intro gs numPath sids1 sids2 tbl ex hperm hwf
  have hpf : (sids1.foldl (fun t sid => pushItem sid numPath t) tbl).id_prefsum
      = (sids2.foldl (fun t sid => pushItem sid numPath t) tbl).id_prefsum := by
    funext b q
    rw [foldl_pushItem_prefsum numPath sids1 tbl b q, foldl_pushItem_prefsum numPath sids2 tbl b q,
      hperm.countP_eq]
  have hpf2 : (closePrefsum numPath
        (sids1.foldl (fun t sid => pushItem sid numPath t) tbl)).id_prefsum
      = (closePrefsum numPath
        (sids2.foldl (fun t sid => pushItem sid numPath t) tbl)).id_prefsum := by
    funext b q
    simp only [closePrefsum]
    rw [hpf]
  refine ⟨hpf2, ?_, ?_, ?_, ?_⟩
  · intro b
    show ((sids1.foldl (fun t sid => pushItem sid numPath t) tbl).items b).Perm
      ((sids2.foldl (fun t sid => pushItem sid numPath t) tbl).items b)
    rw [foldl_pushItem_items numPath sids1 tbl b, foldl_pushItem_items numPath sids2 tbl b]
    exact List.Perm.append_left _ (hperm.filter _)
  · cases ex with
    | none => rfl
    | some m =>
      show some (flagPathExcluded (closePrefsum numPath
          (sids1.foldl (fun t sid => pushItem sid numPath t) tbl)) numPath m)
        = some (flagPathExcluded (closePrefsum numPath
          (sids2.foldl (fun t sid => pushItem sid numPath t) tbl)) numPath m)
      have hitems : (fun id => m.items id ||
            (List.range SIZE_T).any (fun k => (pathSlice (closePrefsum numPath
              (sids1.foldl (fun t sid => pushItem sid numPath t) tbl)) numPath k).contains id))
          = (fun id => m.items id ||
            (List.range SIZE_T).any (fun k => (pathSlice (closePrefsum numPath
              (sids2.foldl (fun t sid => pushItem sid numPath t) tbl)) numPath k).contains id)) := by
        funext id
        have hany : ∀ k ∈ List.range SIZE_T,
            ((pathSlice (closePrefsum numPath
              (sids1.foldl (fun t sid => pushItem sid numPath t) tbl)) numPath k).contains id)
            = ((pathSlice (closePrefsum numPath
              (sids2.foldl (fun t sid => pushItem sid numPath t) tbl)) numPath k).contains id) := by
          intro k hk
          rw [pathSlice_after_fast numPath sids1 tbl hwf k (List.mem_range.mp hk),
            pathSlice_after_fast numPath sids2 tbl hwf k (List.mem_range.mp hk)]
          exact contains_eq_of_perm (hperm.filter _) id
        rw [list_any_congr (List.range SIZE_T) _ _ hany]
      simp only [flagPathExcluded]
      rw [hitems]
  · show ((List.range SIZE_T).map (fun k =>
        (sids1.foldl (fun t sid => pushItem sid numPath t) tbl).id_prefsum k (numPath + 1))).sum
      = ((List.range SIZE_T).map (fun k =>
        (sids2.foldl (fun t sid => pushItem sid numPath t) tbl).id_prefsum k (numPath + 1))).sum
    rw [hpf]
  · exact (hperm.map gs.node_len).sum_eq

/-- Witness for C7: the two schedules `[1, 2]` and `[2, 1]` of the same token
multiset agree on every deterministic output. -/
theorem C7_fast_path_deterministic_witness :
    ([1, 2] : List Nat).Perm [2, 1] ∧
    ((parse_path_seq_update_tables gsEx 0 [1, 2] ItemTable.new (some exEx)).1.id_prefsum
        = (parse_path_seq_update_tables gsEx 0 [2, 1] ItemTable.new (some exEx)).1.id_prefsum ∧
      (∀ b, ((parse_path_seq_update_tables gsEx 0 [1, 2] ItemTable.new (some exEx)).1.items b).Perm
          ((parse_path_seq_update_tables gsEx 0 [2, 1] ItemTable.new (some exEx)).1.items b)) ∧
      (parse_path_seq_update_tables gsEx 0 [1, 2] ItemTable.new (some exEx)).2.1
          = (parse_path_seq_update_tables gsEx 0 [2, 1] ItemTable.new (some exEx)).2.1 ∧
      (parse_path_seq_update_tables gsEx 0 [1, 2] ItemTable.new (some exEx)).2.2.1
          = (parse_path_seq_update_tables gsEx 0 [2, 1] ItemTable.new (some exEx)).2.2.1 ∧
      (parse_path_seq_update_tables gsEx 0 [1, 2] ItemTable.new (some exEx)).2.2.2
          = (parse_path_seq_update_tables gsEx 0 [2, 1] ItemTable.new (some exEx)).2.2.2) :=
  ⟨by decide,
    C7_fast_path_deterministic gsEx 0 [1, 2] [2, 1] ItemTable.new (some exEx) (by decide)
      (fun _ _ => ⟨rfl, rfl⟩)⟩

/-- Claim C9: whenever a fast-path update runs with an exclude table present,
every node id of the path is activated in it — the resulting table flags
exactly the previously flagged ids plus all ids of the path's token list,
regardless of which sub-intervals the exclude coordinates cover (they are not
even consulted). -/
theorem C9_fast_path_flags_all_nodes :
    ∀ (gs : GraphStorage) (numPath : Nat) (sids : List Nat) (tbl : ItemTable) (m : ActiveTable),
      (∀ b, b < SIZE_T →
        tbl.id_prefsum b numPath = (tbl.items b).length ∧
        tbl.id_prefsum b (numPath + 1) = 0) →
      ∃ m1, (parse_path_seq_update_tables gs numPath sids tbl (some m)).2.1 = some m1 ∧
        ∀ id, m1.items id = (m.items id || sids.contains id) := by
  intro gs numPath sids tbl m hwf
  refine ⟨flagPathExcluded (closePrefsum numPath
      (sids.foldl (fun t sid => pushItem sid numPath t) tbl)) numPath m, rfl, ?_⟩
  intro id
  have hany : (List.range SIZE_T).any (fun k => (pathSlice (closePrefsum numPath
        (sids.foldl (fun t sid => pushItem sid numPath t) tbl)) numPath k).contains id)
      = sids.contains id := by
    rw [list_any_congr (List.range SIZE_T) _
        (fun k => (sids.filter (fun s => decide (s % SIZE_T = k))).contains id)
        (fun k hk => by
          rw [pathSlice_after_fast numPath sids tbl hwf k (List.mem_range.mp hk)])]
    exact range_any_filter_contains sids id
  simp only [flagPathExcluded]
  rw [hany]

/-- Witness for C9: the path `[1, 2]` processed with an exclude table flags
exactly the ids 1 and 2. -/
theorem C9_fast_path_flags_all_nodes_witness :
    ∃ m1, (parse_path_seq_update_tables gsEx 0 [1, 2] ItemTable.new (some exEx)).2.1 = some m1 ∧
      ∀ id, m1.items id = (exEx.items id || ([1, 2] : List Nat).contains id) :=
  C9_fast_path_flags_all_nodes gsEx 0 [1, 2] ItemTable.new exEx (fun _ _ => ⟨rfl, rfl⟩)

/-- Claim C4, amended: for every `P`/`W` line with a nonempty raw span
(`start < end`) that intersects neither the resolved include coordinates nor
the resolved exclude coordinates, the scanner skips the token stream (the
result does not depend on the tokens, and no items are appended), records no
`paths_len` entry, and carries the prefix sums forward — in particular
`id_prefsum[b][p+1] = id_prefsum[b][p]` when row `p+1` was zero. -/
theorem C4_skip_carries_prefix_sums :
    ∀ (count : CountType) (ig eg : Bool) (gs : GraphStorage) (line : GfaLine) (s : ScanState),
      line.span.1 < line.span.2 → line.span.2 ≤ USIZE_MAX →
      intersects (effIncludeCoords ig line) line.span = false →
      intersects (effExcludeCoords eg line) line.span = false →
      ∃ s1, processLine count ig eg gs line s = .ok s1 ∧
        (∀ b, s1.st.tbl.items b = s.st.tbl.items b) ∧
        s1.pathsLen = s.pathsLen ∧
        (∀ b, b < SIZE_T → s1.st.tbl.id_prefsum b (s.numPath + 1)
            = s.st.tbl.id_prefsum b (s.numPath + 1) + s.st.tbl.id_prefsum b s.numPath) ∧
        (∀ b, b < SIZE_T → s.st.tbl.id_prefsum b (s.numPath + 1) = 0 →
            s1.st.tbl.id_prefsum b (s.numPath + 1) = s.st.tbl.id_prefsum b s.numPath) ∧
        (∀ tokens2, processLine count ig eg gs { line with tokens := tokens2 } s
            = processLine count ig eg gs line s) := by
  intro count ig eg gs line s h1 h2 hinc hexc
  have hig : ig = true := by
    cases hig : ig
    · exfalso
      rw [hig] at hinc
      simp [effIncludeCoords, intersects] at hinc
      omega
    · rfl
  subst hig
  have heval : ∀ tk : List (Nat × Orientation),
      processLine count true eg gs { line with tokens := tk } s
        = .ok { s with st := { s.st with tbl := closePrefsum s.numPath s.st.tbl },
                       numPath := s.numPath + 1 } := by
    intro tk
    have hproj1 : effIncludeCoords true { line with tokens := tk }
        = effIncludeCoords true line := rfl
    have hproj2 : effExcludeCoords eg { line with tokens := tk }
        = effExcludeCoords eg line := rfl
    simp [processLine, hproj1, hproj2, hinc, hexc]
  have heval0 : processLine count true eg gs line s
      = .ok { s with st := { s.st with tbl := closePrefsum s.numPath s.st.tbl },
                     numPath := s.numPath + 1 } := by
    simp [processLine, hinc, hexc]
  refine ⟨_, heval0, ?_, rfl, ?_, ?_, ?_⟩
  · intro b
    rfl
  · intro b hb
    simp only [closePrefsum]
    rw [if_pos ⟨hb, trivial⟩]
  · intro b hb hz
    simp only [closePrefsum]
    rw [if_pos ⟨hb, trivial⟩, hz]
    omega
  · intro tk
    rw [heval tk, heval0]

/-- Witness for C4 (amended): a line whose nonempty span `[40, 50)` misses both
its include interval `[0, 10)` and its exclude interval `[20, 30)` is skipped
with the prefix sums carried. -/
theorem C4_skip_carries_prefix_sums_witness :
    ∃ s1, processLine CountType.Node true true gsEx
        { name := 0, span := (40, 50), inc := [(0, 10)], exc := [(20, 30)],
          tokens := [(1, Orientation.Forward)] } ssEx = .ok s1 ∧
      (∀ b, s1.st.tbl.items b = ssEx.st.tbl.items b) ∧
      s1.pathsLen = ssEx.pathsLen ∧
      (∀ b, b < SIZE_T → s1.st.tbl.id_prefsum b (ssEx.numPath + 1)
          = ssEx.st.tbl.id_prefsum b (ssEx.numPath + 1) + ssEx.st.tbl.id_prefsum b ssEx.numPath) ∧
      (∀ b, b < SIZE_T → ssEx.st.tbl.id_prefsum b (ssEx.numPath + 1) = 0 →
          s1.st.tbl.id_prefsum b (ssEx.numPath + 1) = ssEx.st.tbl.id_prefsum b ssEx.numPath) ∧
      (∀ tokens2, processLine CountType.Node true true gsEx
          { name := 0, span := (40, 50), inc := [(0, 10)], exc := [(20, 30)],
            tokens := tokens2 } ssEx
        = processLine CountType.Node true true gsEx
          { name := 0, span := (40, 50), inc := [(0, 10)], exc := [(20, 30)],
            tokens := [(1, Orientation.Forward)] } ssEx) :=
  C4_skip_carries_prefix_sums CountType.Node true true gsEx
    { name := 0, span := (40, 50), inc := [(0, 10)], exc := [(20, 30)],
      tokens := [(1, Orientation.Forward)] } ssEx
    (by decide) (by decide) (by decide) (by decide)

/-- Helper: one container update preserves the Forward/Backward reflection
relation: recording `[a0, b0)` on the Forward side and its reflection
`[l - b0, l - a0)` on the Backward side. -/
theorem covUpdate_orient_rel (sid l a0 b0 : Nat) (oF oB : Option IntervalContainer)
    (hrel : covOrientRel l sid oF oB) (h1 : a0 ≤ b0) (h2 : b0 ≤ l) :
    covOrientRel l sid (covUpdate sid l a0 b0 oF)
      (covUpdate sid l (l - b0) (l - a0) oB) := by
  obtain ⟨cF, cB, rfl, rfl, hk, hsid⟩ := hrel
  by_cases hfull : b0 - a0 = l
  · have hfull2 : (l - a0) - (l - b0) = l := by omega
    have hcont : cB.containsId sid = cF.containsId sid := by
      unfold IntervalContainer.containsId
      rw [hsid]
      cases cF.data sid <;> rfl
    by_cases hc : cF.containsId sid = true
    · refine ⟨cF.remove sid, cB.remove sid, ?_, ?_, ?_, ?_⟩
      · simp [covUpdate, hfull, hc]
      · simp [covUpdate, hfull2, hcont, hc]
      · intro k hkne
        simp [IntervalContainer.remove, hkne]
        exact hk k hkne
      · simp [IntervalContainer.remove]
    · refine ⟨cF, cB, ?_, ?_, hk, hsid⟩
      · simp [covUpdate, hfull, hc]
      · simp [covUpdate, hfull2, hcont, hc]
  · have hfull2 : ¬((l - a0) - (l - b0) = l) := by omega
    refine ⟨cF.add sid a0 b0, cB.add sid (l - b0) (l - a0), ?_, ?_, ?_, ?_⟩
    · simp [covUpdate, hfull]
    · simp [covUpdate, hfull2]
    · intro k hkne
      simp [IntervalContainer.add, hkne]
      exact hk k hkne
    · simp [IntervalContainer.add, hsid, List.map_append, revPair]

/-- Helper: one exclude-table update preserves the Forward/Backward reflection
relation (flag bits are set identically; annotations record reflected
sub-intervals). -/
theorem activeUpdate_orient_rel (sid l a0 b0 : Nat) (mF mB : ActiveTable)
    (hitems : mF.items = mB.items)
    (hannot : (mF.annot = none ∧ mB.annot = none) ∨
      ∃ fF fB, mF.annot = some fF ∧ mB.annot = some fB ∧
        (∀ k, k ≠ sid → fB k = fF k) ∧ fB sid = (fF sid).map (revPair l)) :
    atOrientRel l sid
      (some (if mF.withAnnot then mF.activateAnnot sid l a0 b0 else mF.activate sid))
      (some (if mB.withAnnot then mB.activateAnnot sid l (l - b0) (l - a0)
        else mB.activate sid)) := by
  rcases hannot with ⟨hF, hB⟩ | ⟨fF, fB, hF, hB, hk, hsid⟩
  · have hwF : mF.withAnnot = false := by simp [ActiveTable.withAnnot, hF]
    have hwB : mB.withAnnot = false := by simp [ActiveTable.withAnnot, hB]
    rw [hwF, hwB]
    refine Or.inr ⟨mF.activate sid, mB.activate sid, rfl, rfl, ?_, Or.inl ⟨?_, ?_⟩⟩
    · funext k
      simp only [ActiveTable.activate, hitems]
    · simp [ActiveTable.activate, hF]
    · simp [ActiveTable.activate, hB]
  · have hwF : mF.withAnnot = true := by simp [ActiveTable.withAnnot, hF]
    have hwB : mB.withAnnot = true := by simp [ActiveTable.withAnnot, hB]
    rw [hwF, hwB]
    refine Or.inr ⟨mF.activateAnnot sid l a0 b0, mB.activateAnnot sid l (l - b0) (l - a0),
      rfl, rfl, ?_, Or.inr ⟨fun k => if k = sid then fF k ++ [(a0, b0)] else fF k,
        fun k => if k = sid then fB k ++ [(l - b0, l - a0)] else fB k, ?_, ?_, ?_, ?_⟩⟩
    · funext k
      simp only [ActiveTable.activateAnnot, hitems]
    · simp [ActiveTable.activateAnnot, hF]
    · simp [ActiveTable.activateAnnot, hB]
    · intro k hkne
      simp [hkne]
      exact hk k hkne
    · simp [hsid, List.map_append, revPair]

/-- Helper: running the include-cursor loop of one node Forward and Backward
from reflection-related states consumes the same intervals, appends the same
items, counts the same bp, and keeps the containers reflection-related. -/
theorem incNodeLoop_orient_rel (sid l p numPath : Nat) :
    ∀ (ints : List (Nat × Nat)) (stF stB : UtState) (included includedBp : Nat),
      (∀ x ∈ ints, x.1 ≤ x.2) →
      stF.tbl = stB.tbl →
      stF.ex = stB.ex →
      covOrientRel l sid stF.cov stB.cov →
      (incNodeLoop sid Orientation.Forward l p numPath ints stF included includedBp).1
          = (incNodeLoop sid Orientation.Backward l p numPath ints stB included includedBp).1 ∧
      (incNodeLoop sid Orientation.Forward l p numPath ints stF included includedBp).2.1.tbl
          = (incNodeLoop sid Orientation.Backward l p numPath ints stB included includedBp).2.1.tbl ∧
      (incNodeLoop sid Orientation.Forward l p numPath ints stF included includedBp).2.1.ex
          = (incNodeLoop sid Orientation.Backward l p numPath ints stB included includedBp).2.1.ex ∧
      covOrientRel l sid
        (incNodeLoop sid Orientation.Forward l p numPath ints stF included includedBp).2.1.cov
        (incNodeLoop sid Orientation.Backward l p numPath ints stB included includedBp).2.1.cov ∧
      (incNodeLoop sid Orientation.Forward l p numPath ints stF included includedBp).2.2
          = (incNodeLoop sid Orientation.Backward l p numPath ints stB included includedBp).2.2 := by
  intro ints
  induction ints with
  | nil =>
    intro stF stB included includedBp _ htbl hex hcov
    simp only [incNodeLoop]
    exact ⟨by trivial, htbl, hex, hcov, by trivial⟩
  | cons hd rest ih =>
    rintro stF stB included includedBp hs htbl hex hcov
    obtain ⟨s, e⟩ := hd
    have hse : s ≤ e := hs (s, e) (List.mem_cons_self _ _)
    have hstl : ∀ x ∈ rest, x.1 ≤ x.2 := fun x hx => hs x (List.mem_cons_of_mem _ hx)
    by_cases h1 : s < p + l
    · by_cases h2 : e > p
      · have ha : (if s > p then s - p else 0) = max s p - p := by
          split <;> omega
        by_cases h3 : e < p + l
        · simp only [incNodeLoop, if_pos h1, if_pos h2, if_pos h3, ha, orientPair]
          have hbp : includedBp + ((l - (max s p - p)) - (l - (e - p)))
              = includedBp + ((e - p) - (max s p - p)) := by omega
          rw [hbp]
          exact ih _ _ _ _ hstl (by rw [htbl]) hex
            (covUpdate_orient_rel sid l (max s p - p) (e - p) stF.cov stB.cov hcov
              (by omega) (by omega))
        · simp only [incNodeLoop, if_pos h1, if_pos h2, if_neg h3, ha, orientPair]
          refine ⟨by trivial, by rw [htbl], hex, ?_, ?_⟩
          · exact covUpdate_orient_rel sid l (max s p - p) l stF.cov stB.cov hcov
              (by omega) (by omega)
          · simp only [Prod.mk.injEq]
            exact ⟨trivial, by omega⟩
      · simp only [incNodeLoop, if_pos h1, if_neg h2]
        exact ih _ _ _ _ hstl htbl hex hcov
    · simp only [incNodeLoop, if_neg h1]
      exact ⟨by trivial, htbl, hex, hcov, by trivial⟩

/-- Helper: running the exclude-cursor loop of one node Forward and Backward
from reflection-related exclude tables consumes the same intervals, counts the
same exclusions, and keeps the tables reflection-related. -/
theorem excNodeLoop_orient_rel (sid l p : Nat) :
    ∀ (ints : List (Nat × Nat)) (exF exB : Option ActiveTable) (excluded : Nat),
      (∀ x ∈ ints, x.1 ≤ x.2) →
      atOrientRel l sid exF exB →
      (excNodeLoop sid Orientation.Forward l p ints exF excluded).1
          = (excNodeLoop sid Orientation.Backward l p ints exB excluded).1 ∧
      atOrientRel l sid
        (excNodeLoop sid Orientation.Forward l p ints exF excluded).2.1
        (excNodeLoop sid Orientation.Backward l p ints exB excluded).2.1 ∧
      (excNodeLoop sid Orientation.Forward l p ints exF excluded).2.2
          = (excNodeLoop sid Orientation.Backward l p ints exB excluded).2.2 := by
  intro ints
  induction ints with
  | nil =>
    intro exF exB excluded _ hrel
    simp only [excNodeLoop]
    exact ⟨by trivial, hrel, by trivial⟩
  | cons hd rest ih =>
    rintro exF exB excluded hs hrel
    obtain ⟨s, e⟩ := hd
    have hse : s ≤ e := hs (s, e) (List.mem_cons_self _ _)
    have hstl : ∀ x ∈ rest, x.1 ≤ x.2 := fun x hx => hs x (List.mem_cons_of_mem _ hx)
    by_cases h1 : s < p + l
    · by_cases h2 : e > p
      · have ha : (if s > p then s - p else 0) = max s p - p := by
          split <;> omega
        by_cases h3 : e < p + l
        · rcases hrel with ⟨hFn, hBn⟩ | ⟨mF, mB, hFs, hBs, hitems, hannot⟩
          · subst hFn
            subst hBn
            simp only [excNodeLoop, if_pos h1, if_pos h2, if_pos h3, ha, orientPair]
            exact ih _ _ _ hstl (Or.inl ⟨rfl, rfl⟩)
          · subst hFs
            subst hBs
            simp only [excNodeLoop, if_pos h1, if_pos h2, if_pos h3, ha, orientPair]
            exact ih _ _ _ hstl
              (activeUpdate_orient_rel sid l (max s p - p) (e - p) mF mB hitems hannot)
        · rcases hrel with ⟨hFn, hBn⟩ | ⟨mF, mB, hFs, hBs, hitems, hannot⟩
          · subst hFn
            subst hBn
            simp only [excNodeLoop, if_pos h1, if_pos h2, if_neg h3, ha, orientPair]
            exact ⟨by trivial, Or.inl ⟨rfl, rfl⟩, by trivial⟩
          · subst hFs
            subst hBs
            simp only [excNodeLoop, if_pos h1, if_pos h2, if_neg h3, ha, orientPair]
            exact ⟨by trivial, activeUpdate_orient_rel sid l (max s p - p) l mF mB hitems hannot,
              by trivial⟩
      · simp only [excNodeLoop, if_pos h1, if_neg h2]
        exact ih _ _ _ hstl hrel
    · simp only [excNodeLoop, if_neg h1]
      exact ⟨by trivial, hrel, by trivial⟩

/-- Claim C8: for a node of length `l`, the clipped coverage sub-intervals a
Backward token records — in the `IntervalContainer` through the include cursor
and in the annotated exclude table through the exclude cursor — are exactly the
reflections `(a, b) ↦ (l - b, l - a)` of the (unreversed) sub-intervals the
same token records when Forward; item appends, bp totals, counters and
interval-cursor positions agree between the two orientations. -/
theorem C8_backward_reverses_recorded_intervals :
    ∀ (sid l p numPath : Nat) (ints : List (Nat × Nat)) (st : UtState)
      (included includedBp excluded : Nat),
      (∀ x ∈ ints, x.1 ≤ x.2) →
      covOrientRel l sid st.cov st.cov →
      atOrientRel l sid st.ex st.ex →
      (covOrientRel l sid
          (incNodeLoop sid Orientation.Forward l p numPath ints st included includedBp).2.1.cov
          (incNodeLoop sid Orientation.Backward l p numPath ints st included includedBp).2.1.cov ∧
        (incNodeLoop sid Orientation.Forward l p numPath ints st included includedBp).1
          = (incNodeLoop sid Orientation.Backward l p numPath ints st included includedBp).1 ∧
        (incNodeLoop sid Orientation.Forward l p numPath ints st included includedBp).2.1.tbl
          = (incNodeLoop sid Orientation.Backward l p numPath ints st included includedBp).2.1.tbl ∧
        (incNodeLoop sid Orientation.Forward l p numPath ints st included includedBp).2.2
          = (incNodeLoop sid Orientation.Backward l p numPath ints st included includedBp).2.2) ∧
      (atOrientRel l sid
          (excNodeLoop sid Orientation.Forward l p ints st.ex excluded).2.1
          (excNodeLoop sid Orientation.Backward l p ints st.ex excluded).2.1 ∧
        (excNodeLoop sid Orientation.Forward l p ints st.ex excluded).1
          = (excNodeLoop sid Orientation.Backward l p ints st.ex excluded).1 ∧
        (excNodeLoop sid Orientation.Forward l p ints st.ex excluded).2.2
          = (excNodeLoop sid Orientation.Backward l p ints st.ex excluded).2.2) := by
  intro sid l p numPath ints st included includedBp excluded hs hcov hex
  obtain ⟨he1, he2, he3, he4, he5⟩ :=
    incNodeLoop_orient_rel sid l p numPath ints st st included includedBp hs rfl rfl hcov
  obtain ⟨hx1, hx2, hx3⟩ := excNodeLoop_orient_rel sid l p ints st.ex st.ex excluded hs hex
  exact ⟨⟨he4, he1, he2, he5⟩, ⟨hx2, hx1, hx3⟩⟩

/-- Witness for C8: one node of length 10 clipped by the interval `[2, 4)`,
with an empty container and an empty annotated exclude table: the Forward run
records `[2, 4)`, the Backward run records `[6, 8)`, and the relation theorem
applies. -/
theorem C8_backward_reverses_recorded_intervals_witness :
    ((∀ x ∈ [((2 : Nat), (4 : Nat))], x.1 ≤ x.2) ∧
      covOrientRel 10 5 (some covEx) (some covEx) ∧
      atOrientRel 10 5 (some exAnnotEx) (some exAnnotEx)) ∧
    covOrientRel 10 5
      (incNodeLoop 5 Orientation.Forward 10 0 0 [(2, 4)]
        { tbl := ItemTable.new, cov := some covEx, ex := some exAnnotEx } 0 0).2.1.cov
      (incNodeLoop 5 Orientation.Backward 10 0 0 [(2, 4)]
        { tbl := ItemTable.new, cov := some covEx, ex := some exAnnotEx } 0 0).2.1.cov ∧
    atOrientRel 10 5
      (excNodeLoop 5 Orientation.Forward 10 0 [(2, 4)] (some exAnnotEx) 0).2.1
      (excNodeLoop 5 Orientation.Backward 10 0 [(2, 4)] (some exAnnotEx) 0).2.1 := by
  have hcov : covOrientRel 10 5 (some covEx) (some covEx) :=
    ⟨covEx, covEx, rfl, rfl, fun _ _ => rfl, rfl⟩
  have hex : atOrientRel 10 5 (some exAnnotEx) (some exAnnotEx) :=
    Or.inr ⟨exAnnotEx, exAnnotEx, rfl, rfl, rfl,
      Or.inr ⟨fun _ => [], fun _ => [], rfl, rfl, fun _ _ => rfl, rfl⟩⟩
  have hmain := C8_backward_reverses_recorded_intervals 5 10 0 0 [(2, 4)]
    { tbl := ItemTable.new, cov := some covEx, ex := some exAnnotEx } 0 0 0
    (by decide) hcov hex
  exact ⟨⟨by decide, hcov, hex⟩, hmain.1.1, hmain.2.1⟩

end Panacus
